import Mathlib

/-
Verification development for the model-serving data-capture and
drift-monitoring engine described in spec.md.  The repository itself holds a
notebook whose monitoring-relevant code is the preprocessing handler
(preprocess_handler); the engine proper (capture codec, baseline statistics,
constraint evaluator, scheduler) is an external managed service, so those
components are modelled from the spec and marked as such in doc comments.
-/

namespace MonitorSpec

/- Lexicographic order on strings via the code points of their characters.
   Defined from first principles so that it evaluates inside the kernel. -/

def strLeAux : List Char → List Char → Bool
  | [], _ => true
  | _ :: _, [] => false
  | a :: as, b :: bs =>
    if a.toNat < b.toNat then true
    else if b.toNat < a.toNat then false
    else strLeAux as bs

def strLe (s t : String) : Bool :=
  strLeAux s.data t.data

theorem strLeAux_refl (l : List Char) : strLeAux l l = true := by
  induction l with
  | nil => rfl
  | cons a as ih => simp [strLeAux, ih]

theorem strLeAux_cons_lt {a b : Char} (as bs : List Char)
    (h : a.toNat < b.toNat) : strLeAux (a :: as) (b :: bs) = true := by
  simp [strLeAux, h]

theorem strLeAux_cons_gt {a b : Char} (as bs : List Char)
    (h : b.toNat < a.toNat) : strLeAux (a :: as) (b :: bs) = false := by
  have h2 : ¬ a.toNat < b.toNat := by omega
  simp [strLeAux, h, h2]

theorem strLeAux_cons_eq {a b : Char} (as bs : List Char)
    (h : a.toNat = b.toNat) : strLeAux (a :: as) (b :: bs) = strLeAux as bs := by
  have h1 : ¬ a.toNat < b.toNat := by omega
  have h2 : ¬ b.toNat < a.toNat := by omega
  simp [strLeAux, h1, h2]

theorem strLeAux_total (l m : List Char) :
    strLeAux l m = true ∨ strLeAux m l = true := by
  induction l generalizing m with
  | nil => exact Or.inl rfl
  | cons a as ih =>
    cases m with
    | nil => exact Or.inr rfl
    | cons b bs =>
      rcases Nat.lt_trichotomy a.toNat b.toNat with h | h | h
      · exact Or.inl (strLeAux_cons_lt as bs h)
      · rw [strLeAux_cons_eq as bs h, strLeAux_cons_eq bs as h.symm]
        exact ih bs
      · exact Or.inr (strLeAux_cons_lt bs as h)

theorem strLeAux_trans :
    ∀ l m n : List Char, strLeAux l m = true → strLeAux m n = true →
      strLeAux l n = true := by
  intro l
  induction l with
  | nil => intro m n _ _; rfl
  | cons a as ih =>
    intro m n h1 h2
    cases m with
    | nil => simp [strLeAux] at h1
    | cons b bs =>
      cases n with
      | nil => simp [strLeAux] at h2
      | cons c cs =>
        rcases Nat.lt_trichotomy a.toNat b.toNat with hab | hab | hab
        · rcases Nat.lt_trichotomy b.toNat c.toNat with hbc | hbc | hbc
          · exact strLeAux_cons_lt as cs (Nat.lt_trans hab hbc)
          · exact strLeAux_cons_lt as cs (by omega)
          · rw [strLeAux_cons_gt bs cs hbc] at h2
            exact absurd h2 (by simp)
        · rcases Nat.lt_trichotomy b.toNat c.toNat with hbc | hbc | hbc
          · exact strLeAux_cons_lt as cs (by omega)
          · rw [strLeAux_cons_eq as cs (by omega)]
            rw [strLeAux_cons_eq as bs hab] at h1
            rw [strLeAux_cons_eq bs cs hbc] at h2
            exact ih bs cs h1 h2
          · rw [strLeAux_cons_gt bs cs hbc] at h2
            exact absurd h2 (by simp)
        · rw [strLeAux_cons_gt as bs hab] at h1
          exact absurd h1 (by simp)

theorem strLe_refl (s : String) : strLe s s = true :=
  strLeAux_refl s.data

theorem strLe_total (s t : String) : strLe s t = true ∨ strLe t s = true :=
  strLeAux_total s.data t.data

theorem strLe_trans {s t u : String} (h1 : strLe s t = true)
    (h2 : strLe t u = true) : strLe s u = true :=
  strLeAux_trans s.data t.data u.data h1 h2

theorem mk_data (l : List Char) : (⟨l⟩ : String).data = l := rfl

/-! Record Capture Codec.  Modelled from the spec: the codec itself runs in
the managed monitoring service, not in the repository; the wire format is the
one the spec fixes in section 6 (and the notebook prints verbatim): one JSON
object per line with captureData.endpointInput / captureData.endpointOutput
(each observedContentType, mode, data, encoding), eventMetadata
(eventId, inferenceTime) and eventVersion.  All leaves are strings; `data`
payloads are opaque and only quote and backslash are escaped. -/

structure CapturePayload where
  observedContentType : String
  data : String
  encoding : String
deriving DecidableEq

structure CapturedRecord where
  endpointInput : CapturePayload
  endpointOutput : CapturePayload
  eventId : String
  inferenceTime : String
  eventVersion : String
deriving DecidableEq

def escapeChar (c : Char) : List Char :=
  if c = '"' ∨ c = '\\' then ['\\', c] else [c]

def escapeList (s : List Char) : List Char :=
  s.flatMap escapeChar

/- Escaped string field followed by its closing quote. -/
def escQ (s : String) : List Char :=
  escapeList s.data ++ ['"']

/- Fixed template pieces of a capture line, in wire order. -/

def T1 : List Char :=
  "\x7b\"captureData\":\x7b\"endpointInput\":\x7b\"observedContentType\":\"".data

def T2 : List Char := ",\"mode\":\"INPUT\",\"data\":\"".data

def T3 : List Char := ",\"encoding\":\"".data

def T4 : List Char :=
  "\x7d,\"endpointOutput\":\x7b\"observedContentType\":\"".data

def T5 : List Char := ",\"mode\":\"OUTPUT\",\"data\":\"".data

def T7 : List Char := "\x7d\x7d,\"eventMetadata\":\x7b\"eventId\":\"".data

def T8 : List Char := ",\"inferenceTime\":\"".data

def T9 : List Char := "\x7d,\"eventVersion\":\"".data

def T10 : List Char := "\x7d".data

def serializeChars (r : CapturedRecord) : List Char :=
  T1 ++ escQ r.endpointInput.observedContentType ++
  T2 ++ escQ r.endpointInput.data ++
  T3 ++ escQ r.endpointInput.encoding ++
  T4 ++ escQ r.endpointOutput.observedContentType ++
  T5 ++ escQ r.endpointOutput.data ++
  T3 ++ escQ r.endpointOutput.encoding ++
  T7 ++ escQ r.eventId ++
  T8 ++ escQ r.inferenceTime ++
  T9 ++ escQ r.eventVersion ++
  T10

def serialize (r : CapturedRecord) : String :=
  ⟨serializeChars r⟩

inductive ParseError where
  | badLiteral (expected : List Char)
  | badString
  | trailingInput
deriving DecidableEq

/- Consume an expected literal, returning the remainder. -/
def dropLit : List Char → List Char → Option (List Char)
  | [], s => some s
  | _ :: _, [] => none
  | c :: l, d :: s => if d = c then dropLit l s else none

/- Consume an escaped string up to and including its closing quote.  The
   Bool flag records whether the previous character was an unconsumed
   backslash. -/
def parseEscapedSt : Bool → List Char → Option (List Char × List Char)
  | _, [] => none
  | true, d :: rest =>
    if d = '"' ∨ d = '\\' then
      (parseEscapedSt false rest).map (fun p => (d :: p.1, p.2))
    else none
  | false, c :: rest =>
    if c = '"' then some ([], rest)
    else if c = '\\' then parseEscapedSt true rest
    else (parseEscapedSt false rest).map (fun p => (c :: p.1, p.2))

def parseEscaped (s : List Char) : Option (List Char × List Char) :=
  parseEscapedSt false s

def expectLit (t : List Char) (s : List Char) : Except ParseError (List Char) :=
  match dropLit t s with
  | some r => .ok r
  | none => .error (.badLiteral t)

def takeString (s : List Char) : Except ParseError (String × List Char) :=
  match parseEscaped s with
  | some (cs, r) => .ok (⟨cs⟩, r)
  | none => .error .badString

/- Error-propagating sequencing for the codec. -/
def step {α β : Type} (x : Except ParseError α)
    (f : α → Except ParseError β) : Except ParseError β :=
  match x with
  | .error e => .error e
  | .ok a => f a

theorem step_ok {α β : Type} (a : α) (f : α → Except ParseError β) :
    step (.ok a) f = f a := rfl

theorem step_error {α β : Type} (e : ParseError)
    (f : α → Except ParseError β) : step (.error e) f = .error e := rfl

def parse (line : String) : Except ParseError CapturedRecord :=
  step (expectLit T1 line.data) fun r0 =>
  step (takeString r0) fun p1 =>
  step (expectLit T2 p1.2) fun r2 =>
  step (takeString r2) fun p3 =>
  step (expectLit T3 p3.2) fun r4 =>
  step (takeString r4) fun p5 =>
  step (expectLit T4 p5.2) fun r6 =>
  step (takeString r6) fun p7 =>
  step (expectLit T5 p7.2) fun r8 =>
  step (takeString r8) fun p9 =>
  step (expectLit T3 p9.2) fun r10 =>
  step (takeString r10) fun p11 =>
  step (expectLit T7 p11.2) fun r12 =>
  step (takeString r12) fun p13 =>
  step (expectLit T8 p13.2) fun r14 =>
  step (takeString r14) fun p15 =>
  step (expectLit T9 p15.2) fun r16 =>
  step (takeString r16) fun p17 =>
  step (expectLit T10 p17.2) fun r18 =>
  if r18.isEmpty then
    .ok ⟨⟨p1.1, p3.1, p5.1⟩, ⟨p7.1, p9.1, p11.1⟩, p13.1, p15.1, p17.1⟩
  else .error .trailingInput

theorem dropLit_append (t s : List Char) : dropLit t (t ++ s) = some s := by
  induction t with
  | nil => rfl
  | cons c l ih => simp [dropLit, ih]

theorem expectLit_append (t s : List Char) : expectLit t (t ++ s) = .ok s := by
  simp [expectLit, dropLit_append]

theorem expectLit_self (t : List Char) : expectLit t t = .ok [] := by
  have h := expectLit_append t []
  rwa [List.append_nil] at h

theorem parseEscaped_escape (s rest : List Char) :
    parseEscaped (escapeList s ++ '"' :: rest) = some (s, rest) := by
  induction s with
  | nil => simp [escapeList, parseEscaped, parseEscapedSt]
  | cons c cs ih =>
    have ih2 : parseEscapedSt false (cs.flatMap escapeChar ++ '"' :: rest) =
        some (cs, rest) := ih
    by_cases h : c = '"' ∨ c = '\\'
    · have hshape : escapeList (c :: cs) ++ '"' :: rest =
          '\\' :: c :: (cs.flatMap escapeChar ++ '"' :: rest) := by
        simp [escapeList, escapeChar, h]
      rw [parseEscaped, hshape]
      have hb1 : ¬ ('\\' : Char) = '"' := by decide
      simp [parseEscapedSt, hb1, h, ih2]
    · push_neg at h
      obtain ⟨hq, hb⟩ := h
      have hshape : escapeList (c :: cs) ++ '"' :: rest =
          c :: (cs.flatMap escapeChar ++ '"' :: rest) := by
        simp [escapeList, escapeChar, hq, hb]
      rw [parseEscaped, hshape]
      simp [parseEscapedSt, hq, hb, ih2]

theorem takeString_escQ (f : String) (rest : List Char) :
    takeString (escQ f ++ rest) = .ok (f, rest) := by
  have h : escQ f ++ rest = escapeList f.data ++ '"' :: rest := by
    simp [escQ]
  rw [h, takeString, parseEscaped_escape]

/- Shared round-trip fact; the C1 claim theorem restates it. -/
theorem parse_serialize_aux (r : CapturedRecord) : parse (serialize r) = .ok r := by
  show parse ⟨serializeChars r⟩ = .ok r
  simp only [parse, mk_data, serializeChars, List.append_assoc]
  simp only [expectLit_append, takeString_escQ, expectLit_self, step_ok]
  rfl

/-! Baseline Statistics Engine (spec 4.2).  Modelled from the spec: the
baselining job runs in the managed Model Monitor container, not in the
repository.  Values are exact rationals; the population standard deviation is
represented by the population variance (its square), which carries the same
information in exact arithmetic.  Per-column aggregation is kept as a
mergeable aggregate so that the parallel-merge property of spec section 5 can
be stated. -/

inductive Value where
  | num (q : ℚ)
  | str (s : String)
  | missing
deriving DecidableEq

abbrev Row := List (String × Value)

def valueAt (row : Row) (col : String) : Value :=
  match row.lookup col with
  | some v => v
  | none => .missing

def colValues (rows : List Row) (col : String) : List Value :=
  rows.map (fun row => valueAt row col)

def getNum : Value → Option ℚ
  | .num q => some q
  | _ => none

def getStr : Value → Option String
  | .str s => some s
  | _ => none

def isPresent : Value → Bool
  | .missing => false
  | _ => true

def omin : Option ℚ → Option ℚ → Option ℚ
  | none, b => b
  | some x, none => some x
  | some x, some y => some (min x y)

def omax : Option ℚ → Option ℚ → Option ℚ
  | none, b => b
  | some x, none => some x
  | some x, some y => some (max x y)

def listMin (l : List ℚ) : Option ℚ :=
  l.foldr (fun q acc => omin (some q) acc) none

def listMax (l : List ℚ) : Option ℚ :=
  l.foldr (fun q acc => omax (some q) acc) none

structure ColAgg where
  total : ℕ
  present : ℕ
  numCount : ℕ
  numSum : ℚ
  numSumSq : ℚ
  numMin : Option ℚ
  numMax : Option ℚ
  catValues : Multiset String
deriving DecidableEq

attribute [ext] ColAgg

def colAggOf (vs : List Value) : ColAgg :=
  ⟨vs.length,
   vs.countP isPresent,
   vs.countP (fun v => (getNum v).isSome),
   (vs.filterMap getNum).sum,
   ((vs.filterMap getNum).map (fun q => q * q)).sum,
   listMin (vs.filterMap getNum),
   listMax (vs.filterMap getNum),
   ↑(vs.filterMap getStr)⟩

def mergeAgg (a b : ColAgg) : ColAgg :=
  ⟨a.total + b.total, a.present + b.present, a.numCount + b.numCount,
   a.numSum + b.numSum, a.numSumSq + b.numSumSq,
   omin a.numMin b.numMin, omax a.numMax b.numMax,
   a.catValues + b.catValues⟩

/- Per-schema aggregation: one aggregate per schema column, in schema order. -/
def aggOf (schema : List String) (rows : List Row) : List ColAgg :=
  schema.map (fun c => colAggOf (colValues rows c))

def mergeAggs (a b : List ColAgg) : List ColAgg :=
  List.zipWith mergeAgg a b

def mergeAllAggs (schema : List String) (l : List (List ColAgg)) : List ColAgg :=
  l.foldr mergeAggs (aggOf schema [])

structure ColumnStats where
  count : ℕ
  mean : ℚ
  popVariance : ℚ
  numMin : Option ℚ
  numMax : Option ℚ
  distinctCount : ℕ
  freq : Multiset String
deriving DecidableEq

def finalizeCol (a : ColAgg) : ColumnStats :=
  ⟨a.present,
   a.numSum / (a.numCount : ℚ),
   a.numSumSq / (a.numCount : ℚ) - (a.numSum / (a.numCount : ℚ)) ^ 2,
   a.numMin, a.numMax,
   a.catValues.toFinset.card,
   a.catValues⟩

def finalizeStats (schema : List String) (aggs : List ColAgg) :
    List (String × ColumnStats) :=
  (schema.zip aggs).map (fun p => (p.1, finalizeCol p.2))

def baselineStats (schema : List String) (rows : List Row) :
    List (String × ColumnStats) :=
  finalizeStats schema (aggOf schema rows)

structure Constraint where
  feature : String
  expectNumeric : Bool
  completenessThreshold : ℚ
  numRange : Option (ℚ × ℚ)
  allowedValues : Option (Finset String)
deriving DecidableEq

/- Default suggested constraints of spec 4.2: numeric type when at least 95
   percent of the non-missing values are numeric, completeness threshold the
   observed completeness, numeric range the observed range, categorical
   allowed-set the observed distinct values. -/
def suggestCon (name : String) (a : ColAgg) : Constraint :=
  let isNum := decide (19 * a.present ≤ 20 * a.numCount)
  ⟨name, isNum,
   (a.present : ℚ) / (a.total : ℚ),
   if isNum then
     (match a.numMin, a.numMax with
      | some lo, some hi => some (lo, hi)
      | _, _ => none)
   else none,
   if isNum then none else some a.catValues.toFinset⟩

def suggestConstraints (schema : List String) (aggs : List ColAgg) :
    List Constraint :=
  (schema.zip aggs).map (fun p => suggestCon p.1 p.2)

/- Contract of spec 4.2: suggest(reference_dataset, schema), failing with
   SchemaMismatchError when a row's column count differs from the schema's. -/
def suggest (rows : List Row) (schema : List String) :
    Except String (List (String × ColumnStats) × List Constraint) :=
  if rows.all (fun row => row.length == schema.length) then
    .ok (baselineStats schema rows,
         suggestConstraints schema (aggOf schema rows))
  else .error ("SchemaMismatchError")

theorem omin_comm (a b : Option ℚ) : omin a b = omin b a := by
  cases a <;> cases b <;> simp [omin, min_comm]

theorem omax_comm (a b : Option ℚ) : omax a b = omax b a := by
  cases a <;> cases b <;> simp [omax, max_comm]

theorem omin_assoc (a b c : Option ℚ) :
    omin (omin a b) c = omin a (omin b c) := by
  cases a <;> cases b <;> cases c <;> simp [omin, min_assoc]

theorem omax_assoc (a b c : Option ℚ) :
    omax (omax a b) c = omax a (omax b c) := by
  cases a <;> cases b <;> cases c <;> simp [omax, max_assoc]

theorem omin_none_right (a : Option ℚ) : omin a none = a := by
  cases a <;> rfl

theorem omax_none_right (a : Option ℚ) : omax a none = a := by
  cases a <;> rfl

theorem listMin_append (l1 l2 : List ℚ) :
    listMin (l1 ++ l2) = omin (listMin l1) (listMin l2) := by
  induction l1 with
  | nil => rfl
  | cons q l ih =>
    show omin (some q) (listMin (l ++ l2)) = omin (omin (some q) (listMin l)) _
    rw [ih, omin_assoc]

theorem listMax_append (l1 l2 : List ℚ) :
    listMax (l1 ++ l2) = omax (listMax l1) (listMax l2) := by
  induction l1 with
  | nil => rfl
  | cons q l ih =>
    show omax (some q) (listMax (l ++ l2)) = omax (omax (some q) (listMax l)) _
    rw [ih, omax_assoc]

theorem mergeAgg_comm (a b : ColAgg) : mergeAgg a b = mergeAgg b a := by
  ext : 1 <;>
    simp [mergeAgg, Nat.add_comm, add_comm, omin_comm, omax_comm]

theorem mergeAgg_assoc (a b c : ColAgg) :
    mergeAgg (mergeAgg a b) c = mergeAgg a (mergeAgg b c) := by
  ext : 1 <;>
    simp [mergeAgg, Nat.add_assoc, add_assoc, omin_assoc, omax_assoc]

theorem colAggOf_append (xs ys : List Value) :
    colAggOf (xs ++ ys) = mergeAgg (colAggOf xs) (colAggOf ys) := by
  ext : 1 <;>
    simp [colAggOf, mergeAgg, List.countP_append, List.filterMap_append,
      listMin_append, listMax_append, Multiset.coe_add]

theorem colValues_append (r1 r2 : List Row) (c : String) :
    colValues (r1 ++ r2) c = colValues r1 c ++ colValues r2 c := by
  simp [colValues]

theorem aggOf_append (schema : List String) (r1 r2 : List Row) :
    aggOf schema (r1 ++ r2) = mergeAggs (aggOf schema r1) (aggOf schema r2) := by
  induction schema with
  | nil => rfl
  | cons c cs ih =>
    show colAggOf (colValues (r1 ++ r2) c) :: aggOf cs (r1 ++ r2) =
      mergeAgg (colAggOf (colValues r1 c)) (colAggOf (colValues r2 c)) ::
        mergeAggs (aggOf cs r1) (aggOf cs r2)
    rw [colValues_append, colAggOf_append, ih]

theorem mergeAgg_empty (a : ColAgg) : mergeAgg a (colAggOf []) = a := by
  ext : 1 <;> simp [mergeAgg, colAggOf, listMin, listMax, omin_none_right,
    omax_none_right]

theorem mergeAggs_empty (schema : List String) (rows : List Row) :
    mergeAggs (aggOf schema rows) (aggOf schema []) = aggOf schema rows := by
  induction schema with
  | nil => rfl
  | cons c cs ih =>
    show mergeAgg (colAggOf (colValues rows c)) (colAggOf (colValues [] c)) ::
        mergeAggs (aggOf cs rows) (aggOf cs []) =
      colAggOf (colValues rows c) :: aggOf cs rows
    have h0 : colValues ([] : List Row) c = [] := rfl
    rw [h0, mergeAgg_empty, ih]

/- Partial aggregation over any chunking merges to the whole-dataset
   aggregate; the C9 claim theorem builds on this. -/
theorem mergeAllAggs_eq (schema : List String) (chunks : List (List Row)) :
    mergeAllAggs schema (chunks.map (aggOf schema)) =
      aggOf schema chunks.flatten := by
  induction chunks with
  | nil => rfl
  | cons c cs ih =>
    show mergeAggs (aggOf schema c) (mergeAllAggs schema (cs.map (aggOf schema))) = _
    rw [ih, ← aggOf_append]
    rfl

/-! Constraint Evaluator (spec 4.5).  Modelled from the spec: evaluation runs
in the managed monitoring container.  Constraints are walked in feature-name
lexicographic order; each feature contributes its violations in the fixed
rule order of the spec. -/

structure BatchFeatureStat where
  present : ℕ
  total : ℕ
  numCount : ℕ
  numMin : Option ℚ
  numMax : Option ℚ
  catObserved : List String
deriving DecidableEq

abbrev BatchStats := List (String × BatchFeatureStat)

inductive ViolationKind where
  | missingFeature
  | completenessViolation (observed threshold : ℚ)
  | typeMismatch
  | rangeViolation (observedMin observedMax : Option ℚ)
  | unseenCategory (value : String)
deriving DecidableEq

structure Violation where
  feature : String
  kind : ViolationKind
deriving DecidableEq

def checkFeature (bs : BatchStats) (tol : ℚ) (c : Constraint) : List Violation :=
  match bs.lookup c.feature with
  | none => [⟨c.feature, .missingFeature⟩]
  | some st =>
    let completeness := (st.present : ℚ) / (st.total : ℚ)
    let compV : List Violation :=
      if completeness < c.completenessThreshold then
        [⟨c.feature, .completenessViolation completeness c.completenessThreshold⟩]
      else []
    let typeV : List Violation :=
      if c.expectNumeric && decide (st.numCount < st.present) then
        [⟨c.feature, .typeMismatch⟩]
      else []
    let rangeV : List Violation :=
      match c.numRange with
      | none => []
      | some r =>
        let low := match st.numMin with
          | some m => decide (m < r.1 - tol)
          | none => false
        let high := match st.numMax with
          | some m => decide (r.2 + tol < m)
          | none => false
        if low || high then
          [⟨c.feature, .rangeViolation st.numMin st.numMax⟩]
        else []
    let catV : List Violation :=
      match c.allowedValues with
      | none => []
      | some allowed =>
        (st.catObserved.filter (fun v => decide (v ∉ allowed))).map
          (fun v => ⟨c.feature, .unseenCategory v⟩)
    compV ++ typeV ++ rangeV ++ catV

def insertCon (c : Constraint) : List Constraint → List Constraint
  | [] => [c]
  | d :: ds =>
    if strLe c.feature d.feature then c :: d :: ds else d :: insertCon c ds

def sortCons : List Constraint → List Constraint
  | [] => []
  | c :: cs => insertCon c (sortCons cs)

def evaluate (bs : BatchStats) (constraints : List Constraint) (tol : ℚ) :
    List Violation :=
  (sortCons constraints).flatMap (checkFeature bs tol)

/- Order of two constraints by feature name. -/
def conLe (a b : Constraint) : Prop :=
  strLe a.feature b.feature = true

/- Order of two violations by feature name. -/
def vioLe (a b : Violation) : Prop :=
  strLe a.feature b.feature = true

theorem mem_insertCon {x c : Constraint} :
    ∀ {l : List Constraint}, x ∈ insertCon c l → x = c ∨ x ∈ l := by
  intro l
  induction l with
  | nil =>
    intro h
    simpa [insertCon] using h
  | cons d ds ih =>
    intro h
    by_cases hc : strLe c.feature d.feature = true
    · rw [insertCon, if_pos hc] at h
      rcases List.mem_cons.mp h with h1 | h1
      · exact Or.inl h1
      · exact Or.inr h1
    · rw [insertCon, if_neg hc] at h
      rcases List.mem_cons.mp h with h1 | h1
      · rw [h1]
        exact Or.inr (List.mem_cons_self d ds)
      · rcases ih h1 with h2 | h2
        · exact Or.inl h2
        · exact Or.inr (List.mem_cons_of_mem d h2)

theorem pairwise_insertCon {c : Constraint} :
    ∀ {l : List Constraint}, List.Pairwise conLe l →
      List.Pairwise conLe (insertCon c l) := by
  intro l
  induction l with
  | nil =>
    intro _
    simp [insertCon, List.Pairwise]
  | cons d ds ih =>
    intro h
    rcases List.pairwise_cons.mp h with ⟨hd, hds⟩
    by_cases hc : strLe c.feature d.feature = true
    · rw [insertCon, if_pos hc]
      refine List.pairwise_cons.mpr ⟨?_, h⟩
      intro x hx
      rcases List.mem_cons.mp hx with hx1 | hx1
      · rw [hx1]
        exact hc
      · exact strLe_trans hc (hd x hx1)
    · rw [insertCon, if_neg hc]
      refine List.pairwise_cons.mpr ⟨?_, ih hds⟩
      intro x hx
      rcases mem_insertCon hx with hx2 | hx2
      · rw [hx2]
        rcases strLe_total c.feature d.feature with h3 | h3
        · exact absurd h3 hc
        · exact h3
      · exact hd x hx2

theorem pairwise_sortCons (cs : List Constraint) :
    List.Pairwise conLe (sortCons cs) := by
  induction cs with
  | nil => simp [sortCons]
  | cons c cs ih => exact pairwise_insertCon ih

theorem checkFeature_feature {bs : BatchStats} {tol : ℚ} {c : Constraint}
    {v : Violation} (h : v ∈ checkFeature bs tol c) : v.feature = c.feature := by
  rw [checkFeature] at h
  rcases hbs : bs.lookup c.feature with _ | st
  · rw [hbs] at h
    simp at h
    rw [h]
  · rw [hbs] at h
    simp only [List.mem_append] at h
    rcases h with ((h | h) | h) | h
    · split at h <;> simp_all
    · split at h <;> simp_all
    · rcases hr : c.numRange with _ | r
      · rw [hr] at h
        simp at h
      · rw [hr] at h
        split at h <;> simp_all
    · rcases ha : c.allowedValues with _ | allowed
      · rw [ha] at h
        simp at h
      · rw [ha] at h
        rcases List.mem_map.mp h with ⟨w, _, hw⟩
        rw [← hw]

theorem pairwise_flatMap_check (bs : BatchStats) (tol : ℚ) :
    ∀ l : List Constraint, List.Pairwise conLe l →
      List.Pairwise vioLe (l.flatMap (checkFeature bs tol)) := by
  intro l
  induction l with
  | nil =>
    intro _
    simp
  | cons c cs ih =>
    intro hp
    rcases List.pairwise_cons.mp hp with ⟨hd, hcs⟩
    rw [List.flatMap_cons, List.pairwise_append]
    refine ⟨?_, ih hcs, ?_⟩
    · apply List.pairwise_of_forall_mem_list
      intro a ha b hb
      show strLe a.feature b.feature = true
      rw [checkFeature_feature ha, checkFeature_feature hb]
      exact strLe_refl _
    · intro a ha b hb
      rcases List.mem_flatMap.mp hb with ⟨d, hdm, hbd⟩
      show strLe a.feature b.feature = true
      rw [checkFeature_feature ha, checkFeature_feature hbd]
      exact hd d hdm

theorem pairwise_evaluate (bs : BatchStats) (constraints : List Constraint)
    (tol : ℚ) : List.Pairwise vioLe (evaluate bs constraints tol) :=
  pairwise_flatMap_check bs tol (sortCons constraints)
    (pairwise_sortCons constraints)

/-! Feature Extraction Adapter boundary and Execution state machine
(spec 4.3, 4.4, 7).  Modelled from the spec: the engine catches adapter
failures per record (skip and count), treats a feature-name mismatch against
the baselining schema as a batch-level SchemaDriftError whose default policy
fails the Execution, and drives every run through the
Pending / InProgress / terminal state machine. -/

abbrev ExtractionError := String

structure FeatureVector where
  features : List (String × ℚ)
  predictions : List (String × ℚ)
deriving DecidableEq

abbrev Adapter := CapturedRecord → Except ExtractionError FeatureVector

def featureNames (fv : FeatureVector) : List String :=
  fv.features.map Prod.fst

inductive DriftPolicy where
  | failExecution
  | skipAndCount
deriving DecidableEq

/- Spec 4.3: the policy decision point defaults to failing the Execution. -/
def defaultDriftPolicy : DriftPolicy := .failExecution

def recOf (l : String) : Option CapturedRecord :=
  (parse l).toOption

def isParseSkip (l : String) : Bool :=
  !(parse l).isOk

/- Parse stage: malformed lines are skipped and counted (spec 7: ParseError
   is local, skip-and-count). -/
def parseStage (lines : List String) : List CapturedRecord × ℕ :=
  (lines.filterMap recOf, lines.countP isParseSkip)

structure ExtractOutcome where
  vectors : List FeatureVector
  skipped : ℕ
  errors : List (String × ExtractionError)
deriving DecidableEq

def vecOf (adapter : Adapter) (c : CapturedRecord) : Option FeatureVector :=
  (adapter c).toOption

def isSkip (adapter : Adapter) (c : CapturedRecord) : Bool :=
  !(adapter c).isOk

def errOf (adapter : Adapter) (c : CapturedRecord) :
    Option (String × ExtractionError) :=
  match adapter c with
  | .error e => some (c.eventId, e)
  | .ok _ => none

/- Extraction stage: an adapter exception is caught, reported attributed to
   the record's eventId, and the record is skipped and counted. -/
def extractStage (adapter : Adapter) (records : List CapturedRecord) :
    ExtractOutcome :=
  ⟨records.filterMap (vecOf adapter),
   records.countP (isSkip adapter),
   records.filterMap (errOf adapter)⟩

/- Schema drift check: feature names must match the baselining schema in
   cardinality and identity.  Under failExecution the whole batch fails on
   any mismatch; under skipAndCount the mismatching records are dropped and
   counted. -/
def driftCheck (policy : DriftPolicy) (schema : List String)
    (fvs : List FeatureVector) : Except (List String) (List FeatureVector × ℕ) :=
  match policy with
  | .failExecution =>
    match fvs.find? (fun fv => !decide (featureNames fv = schema)) with
    | some fv => .error (featureNames fv)
    | none => .ok (fvs, 0)
  | .skipAndCount =>
    let good := fvs.filter (fun fv => decide (featureNames fv = schema))
    .ok (good, fvs.length - good.length)

def fvLookup (fv : FeatureVector) (name : String) : Option ℚ :=
  fv.features.lookup name

/- Batch statistics over the extracted feature vectors; adapter outputs are
   numeric, so no categorical observations arise here. -/
def batchColStat (fvs : List FeatureVector) (name : String) : BatchFeatureStat :=
  let vals := fvs.filterMap (fun fv => fvLookup fv name)
  ⟨vals.length, fvs.length, vals.length, listMin vals, listMax vals, []⟩

def batchStatsOf (schema : List String) (fvs : List FeatureVector) : BatchStats :=
  schema.map (fun c => (c, batchColStat fvs c))

inductive ExecStatus where
  | pending
  | inProgress
  | completed
  | completedWithViolations
  | failed (reason : String)
  | stopped
deriving DecidableEq

def ExecStatus.isTerminal : ExecStatus → Bool
  | .pending => false
  | .inProgress => false
  | _ => true

def noDataReason : String := "no data"

def schemaDriftReason : String := "schema drift"

structure ExecResult where
  status : ExecStatus
  trace : List ExecStatus
  skipped_records : ℕ
  extractionErrors : List (String × ExtractionError)
  driftError : Option (List String)
  violations : List Violation
deriving DecidableEq

/- One evaluation run (spec 4.4): an empty record window resolves Pending to
   Failed "no data" without visiting InProgress; otherwise the run enters
   InProgress, parses, extracts, checks drift, evaluates, and ends Completed
   or CompletedWithViolations (or Failed on drift under the fail policy). -/
def runExecution (policy : DriftPolicy) (schema : List String)
    (adapter : Adapter) (constraints : List Constraint) (tol : ℚ)
    (lines : List String) : ExecResult :=
  if lines.isEmpty then
    ⟨.failed noDataReason, [.pending, .failed noDataReason], 0, [], none, []⟩
  else
    let pr := parseStage lines
    let ex := extractStage adapter pr.1
    match driftCheck policy schema ex.vectors with
    | .error names =>
      ⟨.failed schemaDriftReason,
       [.pending, .inProgress, .failed schemaDriftReason],
       pr.2 + ex.skipped, ex.errors, some names, []⟩
    | .ok good =>
      let vs := evaluate (batchStatsOf schema good.1) constraints tol
      let st := if vs.isEmpty then ExecStatus.completed
        else ExecStatus.completedWithViolations
      ⟨st, [.pending, .inProgress, st], pr.2 + ex.skipped + good.2,
       ex.errors, none, vs⟩

/- Transition table of spec 4.4. -/
def allowedTransition : ExecStatus → ExecStatus → Bool
  | .pending, .inProgress => true
  | .pending, .failed r => decide (r = noDataReason)
  | .inProgress, t => t.isTerminal
  | _, _ => false

/-! Monitoring Scheduler (spec 4.4, 7).  Modelled from the spec: per
MonitoringSchedule the scheduler keeps the statuses of the Executions it has
created; a cadence tick that fires while one Execution is InProgress is
dropped (ScheduleConflictError: dropped, logged, not escalated), never
queued. -/

inductive SchedEvent where
  | tick (windowNonempty : Bool)
  | finish (t : ExecStatus)

def hasInProgress (execs : List ExecStatus) : Bool :=
  execs.any (fun s => decide (s = ExecStatus.inProgress))

def replaceFirstInProgress : List ExecStatus → ExecStatus → List ExecStatus
  | [], _ => []
  | s :: ss, t =>
    if s = ExecStatus.inProgress then t :: ss
    else s :: replaceFirstInProgress ss t

def schedStep (execs : List ExecStatus) : SchedEvent → List ExecStatus
  | .tick w =>
    if hasInProgress execs then execs
    else if w then ExecStatus.inProgress :: execs
    else ExecStatus.failed noDataReason :: execs
  | .finish t =>
    if t.isTerminal then replaceFirstInProgress execs t else execs

def schedRun (events : List SchedEvent) : List ExecStatus :=
  events.foldl schedStep []

def countInProgress (execs : List ExecStatus) : ℕ :=
  execs.countP (fun s => decide (s = ExecStatus.inProgress))

theorem countInProgress_replaceFirst (t : ExecStatus)
    (ht : t.isTerminal = true) :
    ∀ execs : List ExecStatus,
      countInProgress (replaceFirstInProgress execs t) ≤ countInProgress execs := by
  intro execs
  induction execs with
  | nil => exact Nat.le_refl 0
  | cons s ss ih =>
    by_cases hs : s = ExecStatus.inProgress
    · rw [replaceFirstInProgress, if_pos hs]
      have htne : ¬ t = ExecStatus.inProgress := by
        intro he
        rw [he] at ht
        exact absurd ht (by simp [ExecStatus.isTerminal])
      simp only [countInProgress, List.countP_cons, decide_eq_true_eq]
      simp [htne, hs]
    · rw [replaceFirstInProgress, if_neg hs]
      simp only [countInProgress, List.countP_cons, decide_eq_true_eq]
      simp only [hs, if_false]
      exact Nat.add_le_add_right ih 0

theorem hasInProgress_false_count (execs : List ExecStatus)
    (h : hasInProgress execs = false) : countInProgress execs = 0 := by
  rw [countInProgress, List.countP_eq_zero]
  intro s hs
  simp only [hasInProgress, List.any_eq_false] at h
  exact h s hs

theorem countInProgress_schedStep (execs : List ExecStatus) (e : SchedEvent)
    (h : countInProgress execs ≤ 1) :
    countInProgress (schedStep execs e) ≤ 1 := by
  cases e with
  | tick w =>
    by_cases hip : hasInProgress execs = true
    · rw [schedStep, if_pos hip]
      exact h
    · rw [schedStep, if_neg hip]
      have h0 : countInProgress execs = 0 :=
        hasInProgress_false_count execs (by simpa using hip)
      by_cases hw : w = true
      · rw [if_pos hw]
        have h1 : countInProgress (ExecStatus.inProgress :: execs) =
            countInProgress execs + 1 := by
          simp [countInProgress, List.countP_cons]
        rw [h1, h0]
      · rw [if_neg hw]
        have : countInProgress (ExecStatus.failed noDataReason :: execs) =
            countInProgress execs := by
          simp [countInProgress, List.countP_cons]
        rw [this, h0]
        exact Nat.zero_le 1
  | finish t =>
    by_cases ht : t.isTerminal = true
    · rw [schedStep, if_pos ht]
      exact Nat.le_trans (countInProgress_replaceFirst t ht execs) h
    · rw [schedStep, if_neg ht]
      exact h

theorem countInProgress_schedFold (events : List SchedEvent) :
    ∀ execs : List ExecStatus, countInProgress execs ≤ 1 →
      countInProgress (events.foldl schedStep execs) ≤ 1 := by
  induction events with
  | nil =>
    intro execs h
    exact h
  | cons e es ih =>
    intro execs h
    exact ih (schedStep execs e) (countInProgress_schedStep execs e h)

/-! Embedding of the notebook's preprocessing script (preprocessing.py,
written by the cell tagged writefile in 04_model_monitor.ipynb):

  def preprocess_handler(inference_record):
      input_data = json.loads(inference_record.endpoint_input.data)
      input_data = \x7bf"feature\x7bi\x7d": val for i, val in enumerate(input_data)\x7d
      output_data = json.loads(inference_record.endpoint_output.data)["predictions"][0][0]
      output_data = \x7b"prediction0": output_data\x7d
      return\x7b**input_data\x7d

PyVal models the values json.loads returns; a numeric literal is kept as
mantissa and power-of-ten exponent, which is enough because the handler never
inspects numeric values.  PyErr models the exceptions the interpreter can
raise along this code path. -/

inductive PyVal where
  | null
  | bool (b : Bool)
  | num (mantissa : ℤ) (exp10 : ℤ)
  | str (s : String)
  | arr (l : List PyVal)
  | obj (l : List (String × PyVal))

inductive PyErr where
  | jsonDecodeError
  | keyError
  | indexError
  | typeError
deriving DecidableEq

def skipWs : List Char → List Char
  | [] => []
  | c :: rest =>
    if c = ' ' ∨ c = '\t' ∨ c = '\n' ∨ c = '\r' then skipWs rest
    else c :: rest

def isDigitCh (c : Char) : Bool :=
  decide ('0'.toNat ≤ c.toNat) && decide (c.toNat ≤ '9'.toNat)

def digitsToNat (acc : ℕ) : List Char → ℕ × List Char
  | [] => (acc, [])
  | c :: rest =>
    if isDigitCh c then digitsToNat (acc * 10 + (c.toNat - '0'.toNat)) rest
    else (acc, c :: rest)

def hexVal (c : Char) : Option ℕ :=
  if isDigitCh c then some (c.toNat - '0'.toNat)
  else if decide ('a'.toNat ≤ c.toNat) && decide (c.toNat ≤ 'f'.toNat) then
    some (c.toNat - 'a'.toNat + 10)
  else if decide ('A'.toNat ≤ c.toNat) && decide (c.toNat ≤ 'F'.toNat) then
    some (c.toNat - 'A'.toNat + 10)
  else none

/- Body of a JSON string literal, after the opening quote. -/
def parseJStr : ℕ → List Char → Option (String × List Char)
  | 0, _ => none
  | _ + 1, [] => none
  | fuel + 1, c :: rest =>
    if c = '"' then some ("", rest)
    else if c = '\\' then
      match rest with
      | [] => none
      | e :: rest2 =>
        if e = 'u' then
          match rest2 with
          | h1 :: h2 :: h3 :: h4 :: rest3 =>
            match hexVal h1, hexVal h2, hexVal h3, hexVal h4 with
            | some a, some b, some c2, some d =>
              (parseJStr fuel rest3).map (fun p =>
                (⟨Char.ofNat (((a * 16 + b) * 16 + c2) * 16 + d) :: p.1.data⟩, p.2))
            | _, _, _, _ => none
          | _ => none
        else
          match (match e with
                 | '"' => some '"'
                 | '\\' => some '\\'
                 | '/' => some '/'
                 | 'b' => some (Char.ofNat 8)
                 | 'f' => some (Char.ofNat 12)
                 | 'n' => some '\n'
                 | 'r' => some '\r'
                 | 't' => some '\t'
                 | _ => none) with
          | some d => (parseJStr fuel rest2).map (fun p => (⟨d :: p.1.data⟩, p.2))
          | none => none
    else (parseJStr fuel rest).map (fun p => (⟨c :: p.1.data⟩, p.2))

/- Number literal: optional minus, digits, optional fraction, optional
   exponent; the value is mantissa * 10 ^ exp10. -/
def parseJNum (s : List Char) : Option (PyVal × List Char) :=
  let core : List Char → Option (ℤ × ℤ × List Char) := fun t =>
    match digitsToNat 0 t with
    | (intPart, rest1) =>
      if t.length = rest1.length then none
      else
        match rest1 with
        | '.' :: rest2 =>
          match digitsToNat 0 rest2 with
          | (fracPart, rest3) =>
            if rest2.length = rest3.length then none
            else
              some ((intPart : ℤ) * (10 : ℤ) ^ (rest2.length - rest3.length) +
                (fracPart : ℤ), -((rest2.length : ℤ) - (rest3.length : ℤ)), rest3)
        | _ => some ((intPart : ℤ), 0, rest1)
  let withExp : ℤ × ℤ × List Char → Option (ℤ × ℤ × List Char) := fun me =>
    match me.2.2 with
    | 'e' :: rest | 'E' :: rest =>
      let signed : Bool × List Char :=
        match rest with
        | '-' :: rest2 => (true, rest2)
        | '+' :: rest2 => (false, rest2)
        | _ => (false, rest)
      match digitsToNat 0 signed.2 with
      | (e, rest3) =>
        if signed.2.length = rest3.length then none
        else
          some (me.1, me.2.1 + (if signed.1 then -(e : ℤ) else (e : ℤ)), rest3)
    | _ => some me
  match s with
  | '-' :: rest =>
    match core rest with
    | some me => (withExp me).map (fun r => (.num (-r.1) r.2.1, r.2.2))
    | none => none
  | _ =>
    match core s with
    | some me => (withExp me).map (fun r => (.num r.1 r.2.1, r.2.2))
    | none => none

mutual

def parseJVal : ℕ → List Char → Option (PyVal × List Char)
  | 0, _ => none
  | fuel + 1, s =>
    match skipWs s with
    | 'n' :: 'u' :: 'l' :: 'l' :: rest => some (.null, rest)
    | 't' :: 'r' :: 'u' :: 'e' :: rest => some (.bool true, rest)
    | 'f' :: 'a' :: 'l' :: 's' :: 'e' :: rest => some (.bool false, rest)
    | '"' :: rest => (parseJStr (fuel + 1) rest).map (fun p => (.str p.1, p.2))
    | '[' :: rest =>
      (match skipWs rest with
       | ']' :: rest2 => some (.arr [], rest2)
       | _ => (parseJArr fuel rest).map (fun p => (.arr p.1, p.2)))
    | '\x7b' :: rest =>
      (match skipWs rest with
       | '\x7d' :: rest2 => some (.obj [], rest2)
       | _ => (parseJObj fuel rest).map (fun p => (.obj p.1, p.2)))
    | t => parseJNum t

def parseJArr : ℕ → List Char → Option (List PyVal × List Char)
  | 0, _ => none
  | fuel + 1, s =>
    match parseJVal fuel s with
    | none => none
    | some (v, rest) =>
      match skipWs rest with
      | ',' :: rest2 =>
        (parseJArr fuel rest2).map (fun p => (v :: p.1, p.2))
      | ']' :: rest2 => some ([v], rest2)
      | _ => none

def parseJObj : ℕ → List Char → Option (List (String × PyVal) × List Char)
  | 0, _ => none
  | fuel + 1, s =>
    match skipWs s with
    | '"' :: rest =>
      match parseJStr (fuel + 1) rest with
      | none => none
      | some (k, rest1) =>
        match skipWs rest1 with
        | ':' :: rest2 =>
          match parseJVal fuel rest2 with
          | none => none
          | some (v, rest3) =>
            match skipWs rest3 with
            | ',' :: rest4 =>
              (parseJObj fuel rest4).map (fun p => ((k, v) :: p.1, p.2))
            | '\x7d' :: rest4 => some ([(k, v)], rest4)
            | _ => none
        | _ => none
    | _ => none

end

/- json.loads: parse one JSON document, reject trailing input. -/
def pyLoads (s : String) : Except PyErr PyVal :=
  match parseJVal (s.data.length + 1) s.data with
  | some (v, rest) =>
    if (skipWs rest).isEmpty then .ok v else .error .jsonDecodeError
  | none => .error .jsonDecodeError

/- Python subscripting with a string key, as used for ["predictions"]:
   dict lookup (KeyError when absent); TypeError on anything else that
   json.loads can produce. -/
def pySubscriptKey (v : PyVal) (k : String) : Except PyErr PyVal :=
  match v with
  | .obj l =>
    match l.lookup k with
    | some w => .ok w
    | none => .error .keyError
  | _ => .error .typeError

/- Python subscripting with index 0, as used for [0]: list indexing
   (IndexError when empty), string indexing (one-character string, IndexError
   when empty), KeyError on a dict whose keys are strings, TypeError on the
   remaining json.loads values. -/
def pySubscriptZero (v : PyVal) : Except PyErr PyVal :=
  match v with
  | .arr [] => .error .indexError
  | .arr (w :: _) => .ok w
  | .str s =>
    match s.data with
    | [] => .error .indexError
    | c :: _ => .ok (.str ⟨[c]⟩)
  | .obj _ => .error .keyError
  | _ => .error .typeError

/- Python enumerate over a json.loads value: list elements, dict keys,
   string characters; TypeError otherwise. -/
def pyEnumerate (v : PyVal) : Except PyErr (List PyVal) :=
  match v with
  | .arr l => .ok l
  | .obj l => .ok (l.map (fun p => .str p.1))
  | .str s => .ok (s.data.map (fun c => .str ⟨[c]⟩))
  | _ => .error .typeError

/- First line pair of the handler: input_data = json.loads(...) followed by
   the feature-naming dict comprehension. -/
def inputFeatures (r : CapturedRecord) : Except PyErr (List (String × PyVal)) :=
  match pyLoads r.endpointInput.data with
  | .error e => .error e
  | .ok j =>
    match pyEnumerate j with
    | .error e => .error e
    | .ok items =>
      .ok (items.enum.map (fun p => ("feature" ++ toString p.1, p.2)))

/- Output chain of the handler:
   json.loads(...)["predictions"][0][0]. -/
def outputValue (s : String) : Except PyErr PyVal :=
  match pyLoads s with
  | .error e => .error e
  | .ok j =>
    match pySubscriptKey j ("predictions") with
    | .error e => .error e
    | .ok p =>
      match pySubscriptZero p with
      | .error e => .error e
      | .ok p0 => pySubscriptZero p0

def preprocess_handler (inference_record : CapturedRecord) :
    Except PyErr (List (String × PyVal)) :=
  match inputFeatures inference_record with
  | .error e => .error e
  | .ok input_data =>
    match outputValue inference_record.endpointOutput.data with
    | .error e => .error e
    | .ok p00 =>
      let _output_data := [(("prediction0" : String), p00)]
      .ok input_data

/- Predicate written from the C10 claim's words: the endpointOutput data is a
   JSON object containing a non-empty "predictions" list of non-empty
   lists. -/
def claimGoodPredictions (s : String) : Bool :=
  match pyLoads s with
  | .ok (.obj l) =>
    match l.lookup ("predictions") with
    | some (.arr ps) =>
      !ps.isEmpty && ps.all (fun p =>
        match p with
        | .arr q => !q.isEmpty
        | _ => false)
    | _ => false
  | _ => false

/- What the code actually requires of the output side: the value can be
   subscripted at index 0 twice, which Python also grants to non-empty
   strings. -/
def zeroIndexable (v : PyVal) : Bool :=
  match v with
  | .arr l => !l.isEmpty
  | .str s =>
    match s.data with
    | [] => false
    | _ :: _ => true
  | _ => false

def firstOf (v : PyVal) : Option PyVal :=
  match v with
  | .arr (w :: _) => some w
  | .str s =>
    match s.data with
    | c :: _ => some (.str ⟨[c]⟩)
    | [] => none
  | _ => none

def goodPredictionsData (s : String) : Bool :=
  match pyLoads s with
  | .ok (.obj l) =>
    match l.lookup ("predictions") with
    | some v =>
      zeroIndexable v &&
        (match firstOf v with
         | some w => zeroIndexable w
         | none => false)
    | none => false
  | _ => false

/-! Supporting lemmas for the claim theorems. -/

/- A capture line missing its endpointOutput side: the canonical rendering of
   a record in which the output object is absent altogether, jumping from the
   input's encoding straight to eventMetadata. -/
def serializeInputOnly (r : CapturedRecord) : String :=
  ⟨T1 ++ escQ r.endpointInput.observedContentType ++
   T2 ++ escQ r.endpointInput.data ++
   T3 ++ escQ r.endpointInput.encoding ++
   T7 ++ escQ r.eventId ++
   T8 ++ escQ r.inferenceTime ++
   T9 ++ escQ r.eventVersion ++
   T10⟩

theorem expectLit_T4_T7 (x : List Char) :
    expectLit T4 (T7 ++ x) = .error (.badLiteral T4) := rfl

theorem parse_serializeInputOnly (r : CapturedRecord) :
    parse (serializeInputOnly r) = .error (.badLiteral T4) := by
  show parse ⟨T1 ++ escQ r.endpointInput.observedContentType ++
    T2 ++ escQ r.endpointInput.data ++
    T3 ++ escQ r.endpointInput.encoding ++
    T7 ++ escQ r.eventId ++
    T8 ++ escQ r.inferenceTime ++
    T9 ++ escQ r.eventVersion ++
    T10⟩ = .error (.badLiteral T4)
  simp only [parse, mk_data, List.append_assoc]
  simp only [expectLit_append, takeString_escQ, step_ok, expectLit_T4_T7,
    step_error]

theorem parseStage_append (a b : List String) :
    parseStage (a ++ b) =
      ((parseStage a).1 ++ (parseStage b).1,
       (parseStage a).2 + (parseStage b).2) := by
  simp [parseStage, List.filterMap_append, List.countP_append]

theorem parseStage_allOk {g : List String}
    (h : g.all (fun l => (parse l).isOk) = true) :
    (parseStage g).2 = 0 := by
  rw [parseStage]
  rw [List.all_eq_true] at h
  simp only [List.countP_eq_zero]
  intro l hl
  simp [isParseSkip, h l hl]

theorem parseStage_map_serialize (batch : List CapturedRecord) :
    parseStage (batch.map serialize) = (batch, 0) := by
  rw [parseStage]
  simp only [Prod.mk.injEq]
  constructor
  · rw [List.filterMap_map]
    have h : ∀ c : CapturedRecord, (recOf ∘ serialize) c = some c := by
      intro c
      simp [Function.comp, recOf, parse_serialize_aux c, Except.toOption]
    calc (batch.filterMap (recOf ∘ serialize))
        = batch.filterMap some := by
          apply List.filterMap_congr
          intro c _
          exact h c
      _ = batch := List.filterMap_some batch
  · rw [List.countP_eq_zero]
    intro l hl
    rcases List.mem_map.mp hl with ⟨c, _, hc⟩
    rw [← hc]
    simp [isParseSkip, parse_serialize_aux c, Except.isOk, Except.toBool]

def adapterOkMatching (adapter : Adapter) (schema : List String)
    (c : CapturedRecord) : Bool :=
  match adapter c with
  | .ok fv => decide (featureNames fv = schema)
  | .error _ => false

theorem adapterOkMatching_isOk {adapter : Adapter} {schema : List String}
    {c : CapturedRecord} (h : adapterOkMatching adapter schema c = true) :
    (adapter c).isOk = true := by
  rw [adapterOkMatching] at h
  cases ha : adapter c with
  | ok fv => rfl
  | error e =>
    rw [ha] at h
    cases h

theorem adapterOkMatching_names {adapter : Adapter} {schema : List String}
    {c : CapturedRecord} {fv : FeatureVector}
    (h : adapterOkMatching adapter schema c = true)
    (ha : adapter c = .ok fv) : featureNames fv = schema := by
  rw [adapterOkMatching, ha] at h
  exact of_decide_eq_true h

theorem extractStage_allOk {adapter : Adapter} {schema : List String}
    {l : List CapturedRecord}
    (h : l.all (adapterOkMatching adapter schema) = true) :
    (extractStage adapter l).skipped = 0 ∧
      (extractStage adapter l).errors = [] := by
  rw [List.all_eq_true] at h
  constructor
  · rw [extractStage]
    simp only [List.countP_eq_zero]
    intro c hc
    simp [isSkip, adapterOkMatching_isOk (h c hc)]
  · rw [extractStage]
    simp only [List.filterMap_eq_nil_iff]
    intro c hc
    have hok := adapterOkMatching_isOk (h c hc)
    cases ha : adapter c with
    | ok fv => simp [errOf, ha]
    | error e =>
      rw [ha] at hok
      cases hok

theorem extractStage_vectors_match {adapter : Adapter} {schema : List String}
    {l : List CapturedRecord}
    (h : l.all (adapterOkMatching adapter schema) = true) :
    ∀ fv ∈ (extractStage adapter l).vectors, featureNames fv = schema := by
  rw [List.all_eq_true] at h
  intro fv hfv
  rw [extractStage] at hfv
  rcases List.mem_filterMap.mp hfv with ⟨c, hc, hct⟩
  have hok := adapterOkMatching_isOk (h c hc)
  cases ha : adapter c with
  | ok fv2 =>
    rw [show vecOf adapter c = some fv2 by
      simp [vecOf, ha, Except.toOption]] at hct
    cases hct
    exact adapterOkMatching_names (h c hc) ha
  | error e =>
    rw [ha] at hok
    cases hok

theorem driftCheck_ok {schema : List String} {fvs : List FeatureVector}
    (h : ∀ fv ∈ fvs, featureNames fv = schema) :
    driftCheck .failExecution schema fvs = .ok (fvs, 0) := by
  rw [driftCheck]
  have hf : fvs.find? (fun fv => !decide (featureNames fv = schema)) = none := by
    rw [List.find?_eq_none]
    intro fv hfv
    simp [h fv hfv]
  rw [hf]

theorem driftCheck_fail {schema : List String} {fvs : List FeatureVector}
    {fv : FeatureVector} (hmem : fv ∈ fvs)
    (hne : featureNames fv ≠ schema) :
    ∃ names, driftCheck .failExecution schema fvs = .error names := by
  rw [driftCheck]
  cases hf : fvs.find? (fun fv => !decide (featureNames fv = schema)) with
  | none =>
    rw [List.find?_eq_none] at hf
    exact absurd (by simpa using hf fv hmem) hne
  | some fv2 => exact ⟨featureNames fv2, rfl⟩

theorem pySubscriptZero_isOk (v : PyVal) :
    (pySubscriptZero v).isOk = zeroIndexable v := by
  cases v with
  | arr l => cases l <;> rfl
  | str s =>
    cases s with
    | mk d => cases d <;> rfl
  | null => rfl
  | bool b => rfl
  | num m e => rfl
  | obj l => rfl

theorem outputValue_isOk (s : String) :
    (outputValue s).isOk = goodPredictionsData s := by
  rw [outputValue, goodPredictionsData]
  cases hl : pyLoads s with
  | error e => rfl
  | ok j =>
    cases j with
    | obj l =>
      cases hk : l.lookup ("predictions") with
      | none => simp [pySubscriptKey, hk, Except.isOk, Except.toBool]
      | some v =>
        cases v with
        | arr l2 =>
          cases l2 with
          | nil =>
            simp [pySubscriptKey, hk, pySubscriptZero, zeroIndexable,
              Except.isOk, Except.toBool]
          | cons w ws =>
            simp only [pySubscriptKey, hk]
            show (pySubscriptZero w).isOk = _
            rw [pySubscriptZero_isOk]
            simp [zeroIndexable, firstOf]
        | str s2 =>
          cases s2 with
          | mk d =>
            cases d with
            | nil =>
              simp [pySubscriptKey, hk, pySubscriptZero, zeroIndexable,
                Except.isOk, Except.toBool]
            | cons c cs =>
              simp [pySubscriptKey, hk, pySubscriptZero, zeroIndexable,
                firstOf, Except.isOk, Except.toBool]
        | null =>
          simp [pySubscriptKey, hk, pySubscriptZero, zeroIndexable, Except.isOk, Except.toBool]
        | bool b =>
          simp [pySubscriptKey, hk, pySubscriptZero, zeroIndexable, Except.isOk, Except.toBool]
        | num m e =>
          simp [pySubscriptKey, hk, pySubscriptZero, zeroIndexable, Except.isOk, Except.toBool]
        | obj l2 =>
          simp [pySubscriptKey, hk, pySubscriptZero, zeroIndexable, Except.isOk, Except.toBool]
    | null => simp [pySubscriptKey, Except.isOk, Except.toBool]
    | bool b => simp [pySubscriptKey, Except.isOk, Except.toBool]
    | num m e => simp [pySubscriptKey, Except.isOk, Except.toBool]
    | str s2 => simp [pySubscriptKey, Except.isOk, Except.toBool]
    | arr l2 => simp [pySubscriptKey, Except.isOk, Except.toBool]

/-! Claim theorems. -/

/-- C1: for every well-formed CapturedRecord r, parse (serialize r) = ok r;
in particular the opaque data payload strings of input and output are carried
through byte-for-byte, never reinterpreted (the record, data payloads
included, is recovered exactly). -/
theorem claim_C1_roundtrip (r : CapturedRecord) : parse (serialize r) = .ok r :=
  parse_serialize_aux r

/-- C4: suggest (reference_dataset, schema) is deterministic and idempotent:
called twice on the same reference dataset and schema it yields identical
BaselineStatistics and identical constraint lists. -/
theorem claim_C4_suggest_idempotent (d1 d2 : List Row) (s1 s2 : List String)
    (h1 : d1 = d2) (h2 : s1 = s2) : suggest d1 s1 = suggest d2 s2 := by
  rw [h1, h2]

theorem claim_C4_suggest_idempotent_witness :
    suggest [[(("RM" : String), Value.num 4)]] ["RM"] =
      suggest [[(("RM" : String), Value.num 4)]] ["RM"] :=
  claim_C4_suggest_idempotent _ _ _ _ rfl rfl

/-- C5: evaluate returns its violations sorted in feature-name lexicographic
order, and the output is stable: the same (batch statistics, constraints,
tolerance) input always yields the same violation list in the same order. -/
theorem claim_C5_evaluate_sorted_stable (bs1 bs2 : BatchStats)
    (cs1 cs2 : List Constraint) (tol1 tol2 : ℚ)
    (h1 : bs1 = bs2) (h2 : cs1 = cs2) (h3 : tol1 = tol2) :
    evaluate bs1 cs1 tol1 = evaluate bs2 cs2 tol2 ∧
      List.Pairwise vioLe (evaluate bs1 cs1 tol1) := by
  subst h1
  subst h2
  subst h3
  exact ⟨rfl, pairwise_evaluate bs1 cs1 tol1⟩

theorem claim_C5_evaluate_sorted_stable_witness :
    evaluate [] [⟨"RM", true, 1, none, none⟩] 0 =
        evaluate [] [⟨"RM", true, 1, none, none⟩] 0 ∧
      List.Pairwise vioLe (evaluate [] [⟨"RM", true, 1, none, none⟩] 0) :=
  claim_C5_evaluate_sorted_stable _ _ _ _ _ _ rfl rfl rfl

/-- C9: batch-statistics aggregation is a commutative, associative reduction:
for every partition of a reference dataset into chunks, computing partial
aggregates per chunk and merging yields the same BaselineStatistics (here
exactly, in rational arithmetic) as computing over the whole dataset at
once. -/
theorem claim_C9_aggregation_merge (schema : List String)
    (chunks : List (List Row)) :
    finalizeStats schema (mergeAllAggs schema (chunks.map (aggOf schema))) =
        baselineStats schema chunks.flatten ∧
      (∀ a b, mergeAgg a b = mergeAgg b a) ∧
      (∀ a b c, mergeAgg (mergeAgg a b) c = mergeAgg a (mergeAgg b c)) :=
  ⟨by rw [mergeAllAggs_eq]; rfl, mergeAgg_comm, mergeAgg_assoc⟩

/-- C8: at most one Execution of a MonitoringSchedule is InProgress at any
time: a scheduler run from the initial state keeps the InProgress count at or
below one, and a tick that fires while the count is one is dropped
unchanged rather than queued. -/
theorem claim_C8_single_inProgress (events : List SchedEvent)
    (execs : List ExecStatus) (w : Bool) :
    countInProgress (schedRun events) ≤ 1 ∧
      (countInProgress execs = 1 → schedStep execs (.tick w) = execs) := by
  constructor
  · exact countInProgress_schedFold events [] (Nat.zero_le 1)
  · intro h
    have hip : hasInProgress execs = true := by
      cases hh : hasInProgress execs
      · have h0 := hasInProgress_false_count execs hh
        omega
      · rfl
    rw [schedStep, if_pos hip]

theorem claim_C8_single_inProgress_witness :
    countInProgress (schedRun [SchedEvent.tick true, SchedEvent.tick true]) ≤ 1 ∧
      schedStep [ExecStatus.inProgress] (SchedEvent.tick true) =
        [ExecStatus.inProgress] :=
  ⟨(claim_C8_single_inProgress [SchedEvent.tick true, SchedEvent.tick true]
      [] true).1,
   (claim_C8_single_inProgress [] [ExecStatus.inProgress] true).2 (by decide)⟩

/- Concrete record whose endpointOutput data is not an object with a
   non-empty predictions list of non-empty lists (its second inner list is
   empty), yet the handler succeeds: [0][0] only touches the first inner
   list. -/
def cexRecord : CapturedRecord :=
  ⟨⟨"application/json", "[1]", "JSON"⟩,
   ⟨"application/json", "\x7b\"predictions\": [[1],[]]\x7d", "JSON"⟩,
   "e1", "2021-03-22T10:58:48Z", "0"⟩

/-- C10 counterexample: a captured record whose endpointOutput data is not a
JSON object containing a non-empty predictions list of non-empty lists, on
which preprocess_handler nevertheless does not raise. -/
theorem claim_C10_counterexample :
    claimGoodPredictions cexRecord.endpointOutput.data = false ∧
      (preprocess_handler cexRecord).isOk = true :=
  ⟨rfl, rfl⟩

/-- C10 (amended): preprocess_handler raises whenever the endpointOutput data
does not parse as a JSON object whose predictions entry is subscriptable at
index 0 (a non-empty list, or a non-empty string) yielding a value again
subscriptable at index 0; and whenever it returns, the computed prediction
value is discarded and only the input-derived feature mapping is returned. -/
theorem claim_C10_amended (r : CapturedRecord) :
    (goodPredictionsData r.endpointOutput.data = false →
      (preprocess_handler r).isOk = false) ∧
    (∀ res, preprocess_handler r = .ok res → inputFeatures r = .ok res) := by
  constructor
  · intro hg
    rw [preprocess_handler]
    cases hi : inputFeatures r with
    | error e => rfl
    | ok input_data =>
      cases ho : outputValue r.endpointOutput.data with
      | error e => rfl
      | ok p =>
        have hok := outputValue_isOk r.endpointOutput.data
        rw [ho, hg] at hok
        simp [Except.isOk, Except.toBool] at hok
  · intro res hres
    rw [preprocess_handler] at hres
    cases hi : inputFeatures r with
    | error e =>
      rw [hi] at hres
      cases hres
    | ok input_data =>
      rw [hi] at hres
      cases ho : outputValue r.endpointOutput.data with
      | error e =>
        rw [ho] at hres
        cases hres
      | ok p =>
        rw [ho] at hres
        simp only [Except.ok.injEq] at hres
        rw [hres]

def wrecBad : CapturedRecord :=
  ⟨⟨"application/json", "[1]", "JSON"⟩,
   ⟨"application/json", "\x7b\"predictions\": 5\x7d", "JSON"⟩,
   "e2", "t", "0"⟩

def wrecOk : CapturedRecord :=
  ⟨⟨"application/json", "[1.5]", "JSON"⟩,
   ⟨"application/json", "\x7b\"predictions\": [[2]]\x7d", "JSON"⟩,
   "e3", "t", "0"⟩

theorem claim_C10_amended_witness :
    (preprocess_handler wrecBad).isOk = false ∧
      inputFeatures wrecOk = .ok [(("feature0" : String), PyVal.num 15 (-1))] :=
  ⟨(claim_C10_amended wrecBad).1 rfl,
   (claim_C10_amended wrecOk).2 [(("feature0" : String), PyVal.num 15 (-1))] rfl⟩

/-- C3: every Execution trace follows Pending then InProgress then one
terminal status, every consecutive transition is allowed by the transition
table, and no transition skips InProgress, except that an execution whose
record window is empty resolves Pending directly to Failed "no data" without
visiting InProgress. -/
theorem claim_C3_state_machine (policy : DriftPolicy) (schema : List String)
    (adapter : Adapter) (constraints : List Constraint) (tol : ℚ)
    (lines : List String) :
    List.Chain' (fun a b => allowedTransition a b = true)
        (runExecution policy schema adapter constraints tol lines).trace ∧
      (runExecution policy schema adapter constraints tol lines).trace.head? =
        some ExecStatus.pending ∧
      (runExecution policy schema adapter constraints tol
        lines).status.isTerminal = true ∧
      ((runExecution policy schema adapter constraints tol lines).trace =
          [ExecStatus.pending, ExecStatus.inProgress,
            (runExecution policy schema adapter constraints tol lines).status] ∨
        (lines.isEmpty = true ∧
          (runExecution policy schema adapter constraints tol lines).trace =
            [ExecStatus.pending, ExecStatus.failed noDataReason])) := by
  simp only [runExecution]
  split
  · rename_i hl
    refine ⟨?_, rfl, rfl, Or.inr ⟨hl, rfl⟩⟩
    simp [List.chain'_cons, allowedTransition]
  · split
    · refine ⟨?_, rfl, rfl, Or.inl rfl⟩
      simp [List.chain'_cons, allowedTransition, ExecStatus.isTerminal]
    · refine ⟨?_, rfl, ?_, Or.inl rfl⟩
      · split
        · simp [List.chain'_cons, allowedTransition, ExecStatus.isTerminal]
        · simp [List.chain'_cons, allowedTransition, ExecStatus.isTerminal]
      · split
        · rfl
        · rfl

/-- C2: when any record of a batch extracts to feature names that do not
match the baselining schema in cardinality and identity, the batch-level
check reports a SchemaDriftError (recorded on the execution), and under the
default policy the whole Execution fails rather than skipping the record. -/
theorem claim_C2_schema_drift_fails (schema : List String) (adapter : Adapter)
    (constraints : List Constraint) (tol : ℚ) (batch : List CapturedRecord)
    (r : CapturedRecord) (fv : FeatureVector)
    (hr : r ∈ batch) (hfv : adapter r = .ok fv)
    (hne : featureNames fv ≠ schema) :
    (runExecution defaultDriftPolicy schema adapter constraints tol
        (batch.map serialize)).status = .failed schemaDriftReason ∧
      (runExecution defaultDriftPolicy schema adapter constraints tol
        (batch.map serialize)).driftError.isSome = true := by
  have hmem : fv ∈ (extractStage adapter batch).vectors := by
    rw [extractStage]
    exact List.mem_filterMap.mpr ⟨r, hr, by rw [vecOf, hfv]; rfl⟩
  rcases driftCheck_fail hmem hne with ⟨names, hd⟩
  have hd2 : driftCheck defaultDriftPolicy schema
      (extractStage adapter (parseStage (batch.map serialize)).1).vectors =
        .error names := by
    rw [parseStage_map_serialize]
    exact hd
  have hnonempty : (batch.map serialize).isEmpty = false := by
    cases batch with
    | nil => cases hr
    | cons a as => rfl
  simp only [runExecution, hnonempty, Bool.false_eq_true, if_false, hd2]
  constructor <;> trivial

theorem claim_C2_schema_drift_fails_witness :
    (runExecution defaultDriftPolicy ["CRIM"]
        (fun _ => .ok ⟨[(("feature0" : String), (1 : ℚ))], []⟩) [] 0
        ([cexRecord].map serialize)).status = .failed schemaDriftReason ∧
      (runExecution defaultDriftPolicy ["CRIM"]
        (fun _ => .ok ⟨[(("feature0" : String), (1 : ℚ))], []⟩) [] 0
        ([cexRecord].map serialize)).driftError.isSome = true :=
  claim_C2_schema_drift_fails ["CRIM"]
    (fun _ => .ok ⟨[(("feature0" : String), (1 : ℚ))], []⟩) [] 0 [cexRecord]
    cexRecord ⟨[(("feature0" : String), (1 : ℚ))], []⟩
    (List.mem_cons_self cexRecord []) rfl (by decide)

/-- C7: a record on which the adapter raises is caught and reported as an
ExtractionError attributed to that record only; the record is excluded from
the batch statistics and counted in skipped_records, the remaining records
are still processed, and the run still reaches Completed or
CompletedWithViolations. -/
theorem claim_C7_extraction_isolated (schema : List String) (adapter : Adapter)
    (constraints : List Constraint) (tol : ℚ)
    (b1 b2 : List CapturedRecord) (bad : CapturedRecord)
    (msg : ExtractionError)
    (hbad : adapter bad = .error msg)
    (hok : (b1 ++ b2).all (adapterOkMatching adapter schema) = true) :
    ((runExecution defaultDriftPolicy schema adapter constraints tol
          ((b1 ++ bad :: b2).map serialize)).status = .completed ∨
        (runExecution defaultDriftPolicy schema adapter constraints tol
          ((b1 ++ bad :: b2).map serialize)).status =
            .completedWithViolations) ∧
      (runExecution defaultDriftPolicy schema adapter constraints tol
        ((b1 ++ bad :: b2).map serialize)).extractionErrors =
          [(bad.eventId, msg)] ∧
      (runExecution defaultDriftPolicy schema adapter constraints tol
        ((b1 ++ bad :: b2).map serialize)).skipped_records = 1 ∧
      (runExecution defaultDriftPolicy schema adapter constraints tol
        ((b1 ++ bad :: b2).map serialize)).violations =
          evaluate (batchStatsOf schema
            (extractStage adapter (b1 ++ b2)).vectors) constraints tol := by
  rw [List.all_append, Bool.and_eq_true] at hok
  have hnone : vecOf adapter bad = none := by
    rw [vecOf, hbad]
    rfl
  have hvec : (extractStage adapter (b1 ++ bad :: b2)).vectors =
      (extractStage adapter (b1 ++ b2)).vectors := by
    show List.filterMap (vecOf adapter) (b1 ++ bad :: b2) =
      List.filterMap (vecOf adapter) (b1 ++ b2)
    rw [List.filterMap_append, List.filterMap_append,
      List.filterMap_cons_none hnone]
  have hskip : (extractStage adapter (b1 ++ bad :: b2)).skipped = 1 := by
    show List.countP (isSkip adapter) (b1 ++ bad :: b2) = 1
    rw [List.countP_append, List.countP_cons]
    have h1 : List.countP (isSkip adapter) b1 = 0 :=
      (extractStage_allOk hok.1).1
    have h2 : List.countP (isSkip adapter) b2 = 0 :=
      (extractStage_allOk hok.2).1
    have h3 : isSkip adapter bad = true := by
      rw [isSkip, hbad]
      rfl
    rw [h1, h2, h3]
    rfl
  have herr : (extractStage adapter (b1 ++ bad :: b2)).errors =
      [(bad.eventId, msg)] := by
    show List.filterMap (errOf adapter) (b1 ++ bad :: b2) = _
    have hsome : errOf adapter bad = some (bad.eventId, msg) := by
      rw [errOf]
      rw [hbad]
    rw [List.filterMap_append, List.filterMap_cons_some hsome]
    have h1 : List.filterMap (errOf adapter) b1 = [] :=
      (extractStage_allOk hok.1).2
    have h2 : List.filterMap (errOf adapter) b2 = [] :=
      (extractStage_allOk hok.2).2
    rw [h1, h2]
    rfl
  have hmatch : ∀ fv ∈ (extractStage adapter (b1 ++ b2)).vectors,
      featureNames fv = schema :=
    extractStage_vectors_match (by
      rw [List.all_append, Bool.and_eq_true]
      exact hok)
  have hd : driftCheck defaultDriftPolicy schema
      (extractStage adapter (b1 ++ b2)).vectors =
        .ok ((extractStage adapter (b1 ++ b2)).vectors, 0) :=
    driftCheck_ok hmatch
  have hnonempty : ((b1 ++ bad :: b2).map serialize).isEmpty = false := by
    cases b1 <;> rfl
  simp only [runExecution, hnonempty, Bool.false_eq_true, if_false,
    parseStage_map_serialize, hvec, hskip, herr, hd]
  refine ⟨?_, by trivial, by simp, by trivial⟩
  split
  · exact Or.inl rfl
  · exact Or.inr rfl

def recA : CapturedRecord :=
  ⟨⟨"application/json", "[1]", "JSON"⟩,
   ⟨"application/json", "[2]", "JSON"⟩, "ra", "t", "0"⟩

def recB : CapturedRecord :=
  ⟨⟨"application/json", "[1]", "JSON"⟩,
   ⟨"application/json", "[2]", "JSON"⟩, "rb", "t", "0"⟩

def adWitness : Adapter := fun c =>
  if c.eventId = "rb" then .error ("boom")
  else .ok ⟨[(("f" : String), (1 : ℚ))], []⟩

theorem claim_C7_extraction_isolated_witness :
    ((runExecution defaultDriftPolicy ["f"] adWitness [] 0
          (([recA] ++ recB :: []).map serialize)).status = .completed ∨
        (runExecution defaultDriftPolicy ["f"] adWitness [] 0
          (([recA] ++ recB :: []).map serialize)).status =
            .completedWithViolations) ∧
      (runExecution defaultDriftPolicy ["f"] adWitness [] 0
        (([recA] ++ recB :: []).map serialize)).extractionErrors =
          [(recB.eventId, "boom")] ∧
      (runExecution defaultDriftPolicy ["f"] adWitness [] 0
        (([recA] ++ recB :: []).map serialize)).skipped_records = 1 ∧
      (runExecution defaultDriftPolicy ["f"] adWitness [] 0
        (([recA] ++ recB :: []).map serialize)).violations =
          evaluate (batchStatsOf ["f"]
            (extractStage adWitness ([recA] ++ [])).vectors) [] 0 :=
  claim_C7_extraction_isolated ["f"] adWitness [] 0 [recA] [] recB ("boom")
    rfl (by decide)

/-- C6: a capture line missing its endpointOutput side fails parse with a
ParseError rather than being silently dropped; the enclosing batch still
completes, excludes exactly that record from the processed window, and
counts it once in skipped_records. -/
theorem claim_C6_parse_error_skipped (schema : List String) (adapter : Adapter)
    (constraints : List Constraint) (tol : ℚ) (g1 g2 : List String)
    (r : CapturedRecord)
    (hg : (g1 ++ g2).all (fun l => (parse l).isOk) = true)
    (hok : ((parseStage (g1 ++ g2)).1).all
      (adapterOkMatching adapter schema) = true) :
    parse (serializeInputOnly r) = .error (.badLiteral T4) ∧
      ((runExecution defaultDriftPolicy schema adapter constraints tol
            (g1 ++ serializeInputOnly r :: g2)).status = .completed ∨
        (runExecution defaultDriftPolicy schema adapter constraints tol
          (g1 ++ serializeInputOnly r :: g2)).status =
            .completedWithViolations) ∧
      (runExecution defaultDriftPolicy schema adapter constraints tol
        (g1 ++ serializeInputOnly r :: g2)).skipped_records = 1 ∧
      (parseStage (g1 ++ serializeInputOnly r :: g2)).1 =
        (parseStage (g1 ++ g2)).1 := by
  rw [List.all_append, Bool.and_eq_true] at hg
  have hnone : recOf (serializeInputOnly r) = none := by
    rw [recOf, parse_serializeInputOnly r]
    rfl
  have hrec : (parseStage (g1 ++ serializeInputOnly r :: g2)).1 =
      (parseStage (g1 ++ g2)).1 := by
    show List.filterMap recOf (g1 ++ serializeInputOnly r :: g2) =
      List.filterMap recOf (g1 ++ g2)
    rw [List.filterMap_append, List.filterMap_append,
      List.filterMap_cons_none hnone]
  have hzero1 : List.countP isParseSkip g1 = 0 := parseStage_allOk hg.1
  have hzero2 : List.countP isParseSkip g2 = 0 := parseStage_allOk hg.2
  have hskipline : (parseStage (g1 ++ serializeInputOnly r :: g2)).2 = 1 := by
    show List.countP isParseSkip (g1 ++ serializeInputOnly r :: g2) = 1
    rw [List.countP_append, List.countP_cons, hzero1, hzero2]
    have h3 : isParseSkip (serializeInputOnly r) = true := by
      rw [isParseSkip, parse_serializeInputOnly r]
      rfl
    rw [h3]
    rfl
  have hxall := extractStage_allOk hok
  have hmatch := extractStage_vectors_match hok
  have hd : driftCheck defaultDriftPolicy schema
      (extractStage adapter (parseStage (g1 ++ g2)).1).vectors =
        .ok ((extractStage adapter (parseStage (g1 ++ g2)).1).vectors, 0) :=
    driftCheck_ok hmatch
  have hnonempty : (g1 ++ serializeInputOnly r :: g2).isEmpty = false := by
    cases g1 <;> rfl
  refine ⟨parse_serializeInputOnly r, ?_⟩
  simp only [runExecution, hnonempty, Bool.false_eq_true, if_false, hrec,
    hskipline, hxall.1, hxall.2, hd]
  refine ⟨?_, by simp, by trivial⟩
  split
  · exact Or.inl rfl
  · exact Or.inr rfl

theorem claim_C6_parse_error_skipped_witness :
    parse (serializeInputOnly recB) = .error (.badLiteral T4) ∧
      ((runExecution defaultDriftPolicy ["f"] adWitness [] 0
            ([serialize recA] ++ serializeInputOnly recB :: [])).status =
              .completed ∨
        (runExecution defaultDriftPolicy ["f"] adWitness [] 0
          ([serialize recA] ++ serializeInputOnly recB :: [])).status =
            .completedWithViolations) ∧
      (runExecution defaultDriftPolicy ["f"] adWitness [] 0
        ([serialize recA] ++ serializeInputOnly recB :: [])).skipped_records =
          1 ∧
      (parseStage ([serialize recA] ++ serializeInputOnly recB :: [])).1 =
        (parseStage ([serialize recA] ++ [])).1 :=
  claim_C6_parse_error_skipped ["f"] adWitness [] 0 [serialize recA] [] recB
    (by decide) (by decide)

end MonitorSpec
